import Mathlib

/-!
Verification of the pure data-shaping helpers of the attio-mcp-server
repository (src/helpers.ts): a shallow embedding of the JavaScript value
model and of the seven core transformation functions, followed by theorems
settling the specification claims.

Modelling conventions for JavaScript semantics:
  * JS values are modelled by `JsVal`; numbers are exact integers (all
    numeric data in the claims is integer-valued, so float rounding is out
    of scope); `NaN` arises only through `Number(...)` coercion and is
    modelled by `JsNum.nan`.
  * Property access `a.f` / `a?.f` on a non-object yields `undefined`
    (in JS, plain access on `null`/`undefined` throws; no theorem below
    depends on an input where the source would throw).
  * `Number(...)` coercion is modelled for the value shapes that occur in
    CRM data: null, booleans, finite decimal strings, arrays and plain
    objects.  Exotic string forms (hex, exponents, "Infinity") are
    modelled as NaN.
-/

inductive JsVal where
  | null : JsVal
  | undefined : JsVal
  | bool (b : Bool) : JsVal
  | num (q : Int) : JsVal
  | str (s : String) : JsVal
  | arr (elems : List JsVal) : JsVal
  | obj (fields : List (String × JsVal)) : JsVal
deriving Repr

mutual

/-- Structural equality on JS values (SameValueZero on the NaN-free
fragment `JsVal` covers). -/
def jsEq : JsVal → JsVal → Bool
  | .null, .null => true
  | .undefined, .undefined => true
  | .bool x, .bool y => x == y
  | .num x, .num y => x == y
  | .str x, .str y => x == y
  | .arr xs, .arr ys => jsEqList xs ys
  | .obj xs, .obj ys => jsEqFields xs ys
  | _, _ => false

def jsEqList : List JsVal → List JsVal → Bool
  | [], [] => true
  | x :: xs, y :: ys => jsEq x y && jsEqList xs ys
  | _, _ => false

def jsEqFields : List (String × JsVal) → List (String × JsVal) → Bool
  | [], [] => true
  | (k1, v1) :: xs, (k2, v2) :: ys => k1 == k2 && jsEq v1 v2 && jsEqFields xs ys
  | _, _ => false

end

mutual

theorem jsEq_iff : ∀ a b, jsEq a b = true ↔ a = b
  | .null, b => by cases b <;> simp [jsEq]
  | .undefined, b => by cases b <;> simp [jsEq]
  | .bool x, b => by cases b <;> simp [jsEq]
  | .num x, b => by cases b <;> simp [jsEq]
  | .str x, b => by cases b <;> simp [jsEq]
  | .arr xs, b => by
      cases b <;> simp [jsEq]
      exact jsEqList_iff xs _
  | .obj xs, b => by
      cases b <;> simp [jsEq]
      exact jsEqFields_iff xs _

theorem jsEqList_iff : ∀ a b, jsEqList a b = true ↔ a = b
  | [], b => by cases b <;> simp [jsEqList]
  | _ :: _, [] => by simp [jsEqList]
  | x :: xs, y :: ys => by
      simp [jsEqList, jsEq_iff x y, jsEqList_iff xs ys]

theorem jsEqFields_iff : ∀ a b, jsEqFields a b = true ↔ a = b
  | [], b => by cases b <;> simp [jsEqFields]
  | _ :: _, [] => by simp [jsEqFields]
  | (k1, v1) :: xs, (k2, v2) :: ys => by
      simp [jsEqFields, jsEq_iff v1 v2, jsEqFields_iff xs ys, and_assoc]

end

instance : DecidableEq JsVal :=
  fun a b => decidable_of_iff (jsEq a b = true) (jsEq_iff a b)

/-- JS truthiness (`if (v)`); `NaN` does not occur in `JsVal`. -/
def truthy : JsVal → Bool
  | .null => false
  | .undefined => false
  | .bool b => b
  | .num q => q != 0
  | .str s => s != ""
  | .arr _ => true
  | .obj _ => true

/-- `a || b` on JS values. -/
def jsOr (a b : JsVal) : JsVal := if truthy a then a else b

/-- `a ?? b` on JS values. -/
def jsCoalesce (a b : JsVal) : JsVal :=
  match a with
  | .null => b
  | .undefined => b
  | v => v

/-- Property access `a?.f` (and `a.f` on objects): first matching field,
`undefined` when absent or when the receiver is not an object. -/
def getField : JsVal → String → JsVal
  | .obj kvs, k => ((kvs.lookup k).getD .undefined)
  | _, _ => .undefined

/-- Index access `a?.[i]`. -/
def getIndex : JsVal → Nat → JsVal
  | .arr xs, i => xs.getD i .undefined
  | _, _ => .undefined

def isStringVal : JsVal → Bool
  | .str _ => true
  | _ => false

def isArrayVal : JsVal → Bool
  | .arr _ => true
  | _ => false


mutual
/-- `String(v)` / template-literal coercion. -/
def jsToString : JsVal → String
  | .null => "null"
  | .undefined => "undefined"
  | .bool b => if b then "true" else "false"
  | .num q => toString q
  | .str s => s
  | .arr xs => String.intercalate "," (jsToStringElems xs)
  | .obj _ => "[object Object]"

/-- Array elements stringify with `null`/`undefined` as the empty string. -/
def jsToStringElems : List JsVal → List String
  | [] => []
  | .null :: vs => "" :: jsToStringElems vs
  | .undefined :: vs => "" :: jsToStringElems vs
  | v :: vs => jsToString v :: jsToStringElems vs
end

inductive JsNum where
  | nan : JsNum
  | int (q : Int) : JsNum
deriving DecidableEq, Repr

/-- JS addition with NaN absorption (used by the pipeline running totals). -/
def JsNum.add : JsNum → JsNum → JsNum
  | .nan, _ => .nan
  | _, .nan => .nan
  | .int a, .int b => .int (a + b)

/-- `s.trim()`: strip leading and trailing whitespace (structurally, so
that proofs can evaluate it; JS trims a slightly larger Unicode whitespace
set, which does not occur in the claims' data). -/
def trimString (s : String) : String :=
  ⟨((s.data.dropWhile Char.isWhitespace).reverse.dropWhile Char.isWhitespace).reverse⟩

def digitsToNat? (cs : List Char) : Option Nat :=
  if cs.all Char.isDigit then
    some (cs.foldl (fun n c => 10 * n + (c.toNat - '0'.toNat)) 0)
  else none

/-- `Number(s)` for a string: trimmed-empty is 0, signed integer-valued
decimal literals parse exactly, anything else is NaN.  (A literal with a
nonzero fractional part is outside this integer number model and also maps
to NaN; no claim involves fractional data.) -/
def parseNumber (s : String) : JsNum :=
  let t := trimString s
  if t = "" then .int 0
  else
    let (sgn, body) : Int × List Char :=
      match t.data with
      | '-' :: cs => (-1, cs)
      | '+' :: cs => (1, cs)
      | cs => (1, cs)
    let ip := body.takeWhile (fun c => c ≠ '.')
    match body.dropWhile (fun c => c ≠ '.') with
    | [] =>
      match digitsToNat? ip with
      | some n => .int (sgn * n)
      | none => .nan
    | _ :: fp =>
      if ip = [] ∧ fp = [] then .nan
      else
        match digitsToNat? ip, digitsToNat? fp with
        | some a, some b => if b = 0 then .int (sgn * a) else .nan
        | _, _ => .nan

/-- `Number(v)` coercion. -/
def toNumber : JsVal → JsNum
  | .null => .int 0
  | .undefined => .nan
  | .bool b => .int (if b then 1 else 0)
  | .num q => .int q
  | .str s => parseNumber s
  | .arr xs => parseNumber (String.intercalate "," (jsToStringElems xs))
  | .obj _ => .nan

/-- `v === t` for a string literal `t`. -/
def strictEqS (v : JsVal) (t : String) : Bool :=
  match v with
  | .str s => s == t
  | _ => false

def isDefined (v : JsVal) : Bool :=
  match v with
  | .undefined => false
  | _ => true

/-- The check `/^\d{4}-\d{2}/.test(value)` on a string value. -/
def isDateString : JsVal → Bool
  | .str s =>
    match s.data with
    | a :: b :: c :: d :: '-' :: e :: f :: _ =>
      a.isDigit && b.isDigit && c.isDigit && d.isDigit && e.isDigit && f.isDigit
    | _ => false
  | _ => false

/-! ### The helpers of src/helpers.ts -/

/-- The template literal
`` `${v.first_name || ""} ${v.last_name || ""}`.trim() `` used by both
`extractRecordName` and `flattenValues`. -/
def composeFirstLast (v : JsVal) : String :=
  (jsToString (jsOr (getField v "first_name") (.str "")) ++ " " ++
    jsToString (jsOr (getField v "last_name") (.str ""))) |> trimString

/-- The body of the `flattenValues` loop applied to the first element of a
key's array (source lines "Personal name" through "Fallback: keep raw"). -/
def flattenFirst (first : JsVal) : JsVal :=
  if isDefined (getField first "full_name") then
    jsOr (getField first "full_name") (.str (composeFirstLast first))
  else if isDefined (getField first "email_address") then
    getField first "email_address"
  else if isDefined (getField first "phone_number") then
    getField first "phone_number"
  else if isDefined (getField first "currency_value") then
    .obj [("amount", getField first "currency_value"),
          ("currency", jsOr (getField first "currency_code") .null)]
  else if isDefined (getField first "status") then
    jsOr (getField (getField first "status") "title") (getField first "status")
  else if isDefined (getField first "target_record_id") then
    .obj [("recordId", getField first "target_record_id"),
          ("objectType", jsOr (getField first "target_object") .null)]
  else if isDefined (getField first "option") then
    jsOr (getField (getField first "option") "title") (getField first "option")
  else if isDefined (getField first "value") && isDateString (getField first "value") then
    getField first "value"
  else if isDefined (getField first "value") then
    getField first "value"
  else
    -- the raw string/number/boolean branch and the final raw-passthrough
    -- branch of the source both return the value unchanged
    first

/-- One key's flattened value: `null` for a missing/empty array, else the
extraction applied to the array's first element. -/
def flattenEntry (v : JsVal) : JsVal :=
  match v with
  | .arr [] => .null
  | .arr (first :: _) => flattenFirst first
  | _ => .null

/-- `flattenValues(values)`.  A JS array is `typeof "object"` and iterates
by `Object.entries` with numeric-string keys; every other non-object input
hits the `!values || typeof values !== "object"` guard and yields `{}`. -/
def flattenValues (values : JsVal) : List (String × JsVal) :=
  match values with
  | .obj kvs => kvs.map (fun kv => (kv.1, flattenEntry kv.2))
  | .arr xs => xs.enum.map (fun iv => (toString iv.1, flattenEntry iv.2))
  | _ => []

/-- `record?.values || record?.attributes || {}` -/
def recordValuesOf (record : JsVal) : JsVal :=
  jsOr (getField record "values") (jsOr (getField record "attributes") (.obj []))

/-- `values.name?.[0] || values.primary_name?.[0]` -/
def nameValOf (record : JsVal) : JsVal :=
  let values := recordValuesOf record
  jsOr (getIndex (getField values "name") 0) (getIndex (getField values "primary_name") 0)

/-- The personal-name block of `extractRecordName` (`if (nameVal) {...}`);
`none` when execution falls through to the title block. -/
def extractFromNameVal (nameVal : JsVal) : Option JsVal :=
  if truthy nameVal then
    if truthy (getField nameVal "full_name") then
      some (getField nameVal "full_name")
    else if truthy (getField nameVal "first_name") || truthy (getField nameVal "last_name") then
      some (.str (composeFirstLast nameVal))
    else if isStringVal nameVal then
      some nameVal
    else if truthy (getField nameVal "value") then
      some (.str (jsToString (getField nameVal "value")))
    else none
  else none

/-- `values.title?.[0] || values.company_name?.[0] || values.deal_name?.[0]` -/
def titleValOf (record : JsVal) : JsVal :=
  let values := recordValuesOf record
  jsOr (getIndex (getField values "title") 0)
    (jsOr (getIndex (getField values "company_name") 0)
      (getIndex (getField values "deal_name") 0))

/-- The company/deal-name block of `extractRecordName`. -/
def extractFromTitleVal (titleVal : JsVal) : Option JsVal :=
  if truthy titleVal then
    if isStringVal titleVal then
      some titleVal
    else if truthy (getField titleVal "value") then
      some (.str (jsToString (getField titleVal "value")))
    else none
  else none

/-- The fallback key loop of `extractRecordName`. -/
def extractFromFallback (values : JsVal) : List String → Option JsVal
  | [] => none
  | k :: ks =>
    let v := getField values k
    if isArrayVal v && truthy (getIndex v 0) then
      let first := getIndex v 0
      if truthy (getField first "full_name") then
        some (getField first "full_name")
      else if isStringVal first then
        some first
      else if truthy (getField first "value") then
        some (.str (jsToString (getField first "value")))
      else extractFromFallback values ks
    else extractFromFallback values ks

def fallbackKeys : List String := ["name", "title", "company", "deal_name", "primary_name"]

/-- `extractRecordName(record)`. -/
def extractRecordName (record : JsVal) : JsVal :=
  match extractFromNameVal (nameValOf record) with
  | some v => v
  | none =>
    match extractFromTitleVal (titleValOf record) with
    | some v => v
    | none =>
      match extractFromFallback (recordValuesOf record) fallbackKeys with
      | some v => v
      | none =>
        jsOr (getField (getField record "id") "record_id")
          (jsOr (getField record "id") (.str "Unknown"))

/-! ### Search result shaping -/

structure ShapedRecord where
  id : JsVal
  objectType : JsVal
  name : JsVal
  email : JsVal
  company : JsVal
  flatValues : List (String × JsVal)
deriving DecidableEq, Repr

/-- An absent optional string parameter is `undefined`. -/
def jsOfOpt : Option String → JsVal
  | none => .undefined
  | some s => .str s

/-- The filter predicate
`!objectType || r.object === objectType || r.parent_object === objectType`
(an empty-string filter is falsy and passes everything). -/
def matchesTypeFilter (objectType : Option String) (r : JsVal) : Bool :=
  match objectType with
  | none => true
  | some t =>
    t == "" || strictEqS (getField r "object") t || strictEqS (getField r "parent_object") t

/-- The projection applied to each surviving record in `shapeSearchResults`. -/
def shapeRecord (objectType : Option String) (r : JsVal) : ShapedRecord :=
  let values := jsOr (getField r "values") (jsOr (getField r "attributes") (.obj []))
  let emailArr := jsOr (getField values "email_addresses") (jsOr (getField values "email") (.arr []))
  let companyArr := jsOr (getField values "company") (jsOr (getField values "companies") (.arr []))
  { id := jsOr (getField (getField r "id") "record_id") (getField r "id")
    objectType := jsOr (getField r "object")
      (jsOr (getField r "parent_object") (jsOr (jsOfOpt objectType) .null))
    name := extractRecordName r
    email := jsOr (getField (getIndex emailArr 0) "email_address")
      (jsOr (getField (getIndex emailArr 0) "value") .null)
    company := jsOr (getField (getIndex companyArr 0) "full_name")
      (jsOr (getField (getIndex companyArr 0) "value") .null)
    flatValues := flattenValues values }

/-- `shapeSearchResults(records, objectType?)`. -/
def shapeSearchResults (records : List JsVal) (objectType : Option String) : List ShapedRecord :=
  (records.filter (matchesTypeFilter objectType)).map (shapeRecord objectType)

/-! ### Pipeline summary -/

structure StageAcc where
  count : Nat
  total : JsNum
  hasValue : Bool
deriving DecidableEq, Repr

structure PipelineStageSummary where
  stage : JsVal
  count : Nat
  totalValue : Option JsNum
deriving DecidableEq, Repr

structure PipelineEntryShape where
  id : JsVal
  recordName : String
  stage : JsVal
  value : Option JsNum
deriving DecidableEq, Repr

structure PipelineSummary where
  listId : String
  listName : String
  totalEntries : Nat
  stages : List PipelineStageSummary
  entries : List PipelineEntryShape
deriving DecidableEq, Repr

/-- `entry.entry_values || entry.values || {}` -/
def entryValuesOf (entry : JsVal) : JsVal :=
  jsOr (getField entry "entry_values") (jsOr (getField entry "values") (.obj []))

/-- `stageVal?.status?.title || stageVal?.option?.title || stageVal?.value || null`
where `stageVal = values.stage?.[0]`. -/
def stageOf (entry : JsVal) : JsVal :=
  let stageVal := getIndex (getField (entryValuesOf entry) "stage") 0
  jsOr (getField (getField stageVal "status") "title")
    (jsOr (getField (getField stageVal "option") "title")
      (jsOr (getField stageVal "value") .null))

/-- `valueVal?.currency_value ?? valueVal?.value ?? null` where
`valueVal = values.value?.[0] || values.amount?.[0] || values.deal_value?.[0]`. -/
def rawValueOf (entry : JsVal) : JsVal :=
  let values := entryValuesOf entry
  let valueVal := jsOr (getIndex (getField values "value") 0)
    (jsOr (getIndex (getField values "amount") 0)
      (getIndex (getField values "deal_value") 0))
  jsCoalesce (getField valueVal "currency_value") (jsCoalesce (getField valueVal "value") .null)

/-- `value !== null ? Number(value) : null` — note the source never filters
a NaN produced by `Number(...)`. -/
def numValueOf (entry : JsVal) : Option JsNum :=
  match rawValueOf entry with
  | .null => none
  | v => some (toNumber v)

/-- `entry.record_id || entry.parent_record_id` -/
def recordIdOf (entry : JsVal) : JsVal :=
  jsOr (getField entry "record_id") (getField entry "parent_record_id")

/-- `Map.get` on a string-keyed map; a non-string key misses. -/
def mapGetS (m : List (String × String)) (k : JsVal) : Option String :=
  match k with
  | .str s => m.lookup s
  | _ => none

/-- `recordId ? (recordNameMap.get(recordId) || \x60Record ${recordId}\x60) : "Unknown"`
(an empty-string map entry is falsy and also falls back). -/
def recordNameOf (recordNameMap : List (String × String)) (entry : JsVal) : String :=
  let rid := recordIdOf entry
  if truthy rid then
    let got := (mapGetS recordNameMap rid).getD ""
    if got ≠ "" then got else "Record " ++ jsToString rid
  else "Unknown"

/-- The per-entry projection built by the `computePipelineSummary` map. -/
def shapeEntry (recordNameMap : List (String × String)) (entry : JsVal) : PipelineEntryShape :=
  { id := jsOr (getField entry "entry_id") (getField entry "id")
    recordName := recordNameOf recordNameMap entry
    stage := stageOf entry
    value := numValueOf entry }

/-- `const stageKey = stage || "No Stage"` -/
def stageKeyOf (entry : JsVal) : JsVal := jsOr (stageOf entry) (.str "No Stage")

/-- One entry's effect on its stage's accumulator (`s.count++` and, for a
non-null value, `s.total += numValue; s.hasValue = true`). -/
def updateStageAcc (s : StageAcc) (v : Option JsNum) : StageAcc :=
  match v with
  | none => { s with count := s.count + 1 }
  | some n => { count := s.count + 1, total := s.total.add n, hasValue := true }

/-- The insertion-ordered `stageMap` update: a fresh key is appended, an
existing key is updated in place. -/
def bumpStage : List (JsVal × StageAcc) → JsVal → Option JsNum → List (JsVal × StageAcc)
  | [], k, v => [(k, updateStageAcc ⟨0, .int 0, false⟩ v)]
  | (k', s) :: rest, k, v =>
    if k' = k then (k', updateStageAcc s v) :: rest
    else (k', s) :: bumpStage rest k v

/-- The `stageMap` after the scan (accumulated entry by entry during the
source's `entryList.map`; the map and the per-entry projections depend only
on the entries, so they are computed separately here). -/
def stageMapOf (entries : List JsVal) : List (JsVal × StageAcc) :=
  entries.foldl (fun m e => bumpStage m (stageKeyOf e) (numValueOf e)) []

/-- `Array.isArray(entries) ? entries : (entries as any)?.data || []` -/
def entryListOf (entries : JsVal) : List JsVal :=
  match entries with
  | .arr xs => xs
  | other =>
    match getField other "data" with
    | .arr xs => xs
    | _ => []

/-- `computePipelineSummary(listId, listName, entries, recordNameMap)`. -/
def computePipelineSummary (listId listName : String) (entries : JsVal)
    (recordNameMap : List (String × String)) : PipelineSummary :=
  let entryList := entryListOf entries
  let shaped := entryList.map (shapeEntry recordNameMap)
  { listId := listId
    listName := listName
    totalEntries := shaped.length
    stages := (stageMapOf entryList).map (fun ks =>
      { stage := ks.1
        count := ks.2.count
        totalValue := if ks.2.hasValue then some ks.2.total else none })
    entries := shaped }

/-! ### Task enrichment -/

structure EnrichedTask where
  id : JsVal
  content : JsVal
  isCompleted : Bool
  deadline : JsVal
  assignees : List String
  linkedRecords : List String
deriving DecidableEq, Repr

/-- The elements `.map` iterates over (a truthy non-array, on which the
source would throw, contributes nothing; no theorem depends on such input). -/
def jsElems (v : JsVal) : List JsVal :=
  match v with
  | .arr xs => xs
  | _ => []

/-- `const id = a.referenced_actor_id || a.id || a;`
`return memberMap.get(id) || \x60User ${id}\x60;` -/
def assigneeName (memberMap : List (String × String)) (a : JsVal) : String :=
  let id := jsOr (getField a "referenced_actor_id") (jsOr (getField a "id") a)
  let got := (mapGetS memberMap id).getD ""
  if got ≠ "" then got else "User " ++ jsToString id

/-- `const rid = lr.record_id || lr.target_record_id;`
`return recordNameMap.get(rid) || \x60Record ${rid}\x60;` -/
def linkedRecordName (recordNameMap : List (String × String)) (lr : JsVal) : String :=
  let rid := jsOr (getField lr "record_id") (getField lr "target_record_id")
  let got := (mapGetS recordNameMap rid).getD ""
  if got ≠ "" then got else "Record " ++ jsToString rid

/-- The per-task enrichment of `enrichTasks`. -/
def enrichTask (memberMap recordNameMap : List (String × String)) (t : JsVal) : EnrichedTask :=
  { id := jsOr (getField (getField t "id") "task_id") (getField t "id")
    content := jsOr (getField t "content_plaintext")
      (jsOr (getField t "content") (jsOr (getField t "title") .null))
    isCompleted := truthy (getField t "is_completed")
    deadline := jsOr (getField t "deadline") (jsOr (getField t "due_date") .null)
    assignees := (jsElems (jsOr (getField t "assignees") (.arr []))).map (assigneeName memberMap)
    linkedRecords := (jsElems (jsOr (getField t "linked_records") (.arr []))).map
      (linkedRecordName recordNameMap) }

/-- Strict lexicographic comparison of char sequences by codepoint. -/
def charListLt : List Char → List Char → Bool
  | [], [] => false
  | [], _ :: _ => true
  | _ :: _, [] => false
  | a :: as, b :: bs =>
    if a.toNat < b.toNat then true
    else if b.toNat < a.toNat then false
    else charListLt as bs

/-- Weak lexicographic comparison of char sequences by codepoint. -/
def charListLe : List Char → List Char → Bool
  | [], _ => true
  | _ :: _, [] => false
  | a :: as, b :: bs =>
    if a.toNat < b.toNat then true
    else if b.toNat < a.toNat then false
    else charListLe as bs

/-- `a < b` on JS strings (code-unit lexicographic order). -/
def strLt (a b : String) : Bool := charListLt a.data b.data

/-- `a.localeCompare(b) ≤ 0` modelled as codepoint order (they agree on
ISO-8601 date strings). -/
def strLe (a b : String) : Bool := charListLe a.data b.data

/-- The numeric comparison JS `<` falls back to when the operands are not
both strings (NaN comparisons are false). -/
def jsNumLt (x y : JsVal) : Bool :=
  match toNumber x, toNumber y with
  | .int p, .int q => decide (p < q)
  | _, _ => false

/-- JS `<` restricted to the shapes that occur: lexicographic on two
strings, else numeric comparison with NaN comparing false. -/
def jsLt (a b : JsVal) : Bool :=
  match a, b with
  | .str x, .str y => strLt x y
  | x, y => jsNumLt x y

/-- The sort comparator `(a, b) => (a.deadline! < b.deadline! ? -1 : 1)`
viewed as a relation.  The comparator is inconsistent on equal deadlines
(it never returns 0), so the JS engine's ordering of ties is
implementation-defined; the embedding fixes a stable insertion sort on
this relation, and the theorems about ties assume distinct deadlines. -/
def deadlineLt (a b : EnrichedTask) : Prop := jsLt a.deadline b.deadline = true

instance : DecidableRel deadlineLt := fun _ _ => Bool.decEq _ _

/-- `[...withDeadline.sort(cmp), ...noDeadline]` where
`withDeadline = enriched.filter(t => t.deadline)` and
`noDeadline = enriched.filter(t => !t.deadline)`. -/
def sortTasksByDeadline (l : List EnrichedTask) : List EnrichedTask :=
  List.insertionSort deadlineLt (l.filter (fun t => truthy t.deadline)) ++
    l.filter (fun t => !truthy t.deadline)

structure EnrichedTasksResult where
  openTasks : List EnrichedTask
  completedTasks : List EnrichedTask
deriving DecidableEq, Repr

/-- `enrichTasks(tasks, memberMap, recordNameMap)`; the TS result fields
`open`/`completed` are `openTasks`/`completedTasks` here (`open` is a Lean
keyword). -/
def enrichTasks (tasks : List JsVal) (memberMap recordNameMap : List (String × String)) :
    EnrichedTasksResult :=
  let enriched := tasks.map (enrichTask memberMap recordNameMap)
  let sorted := sortTasksByDeadline enriched
  { openTasks := sorted.filter (fun t => !t.isCompleted)
    completedTasks := sorted.filter (fun t => t.isCompleted) }

/-! ### Activity timeline -/

inductive EventKind where
  | note : EventKind
  | meeting : EventKind
  | thread : EventKind
deriving DecidableEq, Repr

structure TimelineEvent where
  type : EventKind
  id : JsVal
  date : JsVal
  title : JsVal
  content : JsVal
deriving DecidableEq, Repr

def noteEvent (n : JsVal) : TimelineEvent :=
  { type := .note
    id := jsOr (getField (getField n "id") "note_id") (getField n "id")
    date := jsOr (getField n "created_at") .null
    title := jsOr (getField n "title") .null
    content := jsOr (getField n "content_plaintext") (jsOr (getField n "content") .null) }

def meetingEvent (m : JsVal) : TimelineEvent :=
  { type := .meeting
    id := jsOr (getField (getField m "id") "meeting_id") (getField m "id")
    date := jsOr (getField m "start_time") (jsOr (getField m "created_at") .null)
    title := jsOr (getField m "title") (jsOr (getField m "subject") .null)
    content := jsOr (getField m "description") .null }

def threadEvent (t : JsVal) : TimelineEvent :=
  { type := .thread
    id := jsOr (getField (getField t "id") "thread_id") (getField t "id")
    date := jsOr (getField t "created_at") .null
    title := jsOr (getField t "subject") .null
    content := jsOr (getField t "body_plaintext") (jsOr (getField t "body") .null) }

/-- `cmp(a, b) ≤ 0` for the timeline comparator: two falsy dates tie, a
falsy date sorts after a truthy one, two truthy dates compare by
descending string order (`b.date.localeCompare(a.date)`, which on ISO-8601
strings is codepoint order; a non-string truthy date, on which the source
would throw, is modelled through string coercion). -/
def timelineLe (a b : TimelineEvent) : Bool :=
  if !truthy a.date && !truthy b.date then true
  else if !truthy a.date then false
  else if !truthy b.date then true
  else strLe (jsToString b.date) (jsToString a.date)

def timelineRel (a b : TimelineEvent) : Prop := timelineLe a b = true

instance : DecidableRel timelineRel := fun _ _ => Bool.decEq _ _

/-- `buildActivityTimeline(notes, meetings, threads)`: normalize the three
collections, concatenate, and sort with the (consistent) comparator; the
ECMAScript-guaranteed stable sort is modelled by insertion sort. -/
def buildActivityTimeline (notes meetings threads : List JsVal) : List TimelineEvent :=
  List.insertionSort timelineRel
    (notes.map noteEvent ++ meetings.map meetingEvent ++ threads.map threadEvent)

/-- The spec's three-task example: deadlines 2026-02-15 / 2026-02-10 /
null with completion flags false / true / false. -/
def exampleTasks3 : List JsVal :=
  [.obj [("id", .obj [("task_id", .str "t1")]), ("content", .str "a"),
         ("is_completed", .bool false), ("deadline", .str "2026-02-15"),
         ("assignees", .arr []), ("linked_records", .arr [])],
   .obj [("id", .obj [("task_id", .str "t2")]), ("content", .str "b"),
         ("is_completed", .bool true), ("deadline", .str "2026-02-10"),
         ("assignees", .arr []), ("linked_records", .arr [])],
   .obj [("id", .obj [("task_id", .str "t3")]), ("content", .str "c"),
         ("is_completed", .bool false), ("deadline", .null),
         ("assignees", .arr []), ("linked_records", .arr [])]]

/-! ### Specification-side views of the pipeline aggregation -/

/-- First-match association lookup, the `Map.get` of the `stageMap`. -/
def lookupStage : List (JsVal × StageAcc) → JsVal → Option StageAcc
  | [], _ => none
  | (k', s) :: rest, k => if k' = k then some s else lookupStage rest k

/-- The resolved values of the entries that fall into stage key `k`, in
scan order. -/
def stageValuesOf (k : JsVal) (entries : List JsVal) : List (Option JsNum) :=
  (entries.filter (fun e => decide (stageKeyOf e = k))).map numValueOf

/-- Replaying a sequence of per-entry updates on one stage accumulator. -/
def accumStage (init : StageAcc) (vs : List (Option JsNum)) : StageAcc :=
  vs.foldl updateStageAcc init

/-- A pipeline entry in stage "S" whose value is the currency amount `n`. -/
def pipeEntryS (n : Int) : JsVal :=
  .obj [("entry_id", .str "e"),
        ("entry_values", .obj [("stage", .arr [.obj [("status", .obj [("title", .str "S")])]]),
                               ("value", .arr [.obj [("currency_value", .num n)]])])]

/-- A pipeline entry in stage "S" with no value field at all. -/
def pipeEntryNoValue : JsVal :=
  .obj [("entry_id", .str "e"),
        ("entry_values", .obj [("stage", .arr [.obj [("status", .obj [("title", .str "S")])]])])]

/-- A pipeline entry in stage "S" whose value field holds the non-numeric
string "abc" (so `Number("abc")` is NaN). -/
def pipeEntryNonNumeric : JsVal :=
  .obj [("entry_id", .str "e"),
        ("entry_values", .obj [("stage", .arr [.obj [("status", .obj [("title", .str "S")])]]),
                               ("value", .arr [.obj [("value", .str "abc")]])])]

/-! ### General lemmas about the JS primitives -/

theorem truthy_isDefined {v : JsVal} (h : truthy v = true) : isDefined v = true := by
  cases v <;> simp [truthy, isDefined] at h ⊢

theorem truthy_getField_obj {v : JsVal} {k : String} (h : truthy (getField v k) = true) :
    truthy v = true := by
  cases v <;> first
    | rfl
    | simp [getField, truthy] at h

theorem jsOr_of_truthy {a : JsVal} (b : JsVal) (h : truthy a = true) : jsOr a b = a := by
  simp [jsOr, h]

theorem jsOr_of_falsy {a : JsVal} (b : JsVal) (h : truthy a = false) : jsOr a b = b := by
  simp [jsOr, h]

theorem truthy_jsOr_or_eq (a b : JsVal) : truthy (jsOr a b) = true ∨ jsOr a b = b := by
  by_cases h : truthy a = true
  · exact Or.inl (by rw [jsOr_of_truthy b h]; exact h)
  · exact Or.inr (jsOr_of_falsy b (by simpa using h))

/-! ### Claim C6 — record name resolution totality -/

/-- Claim C6 (code evaluation): the claim says `extractRecordName` always
returns a non-empty string; the final fallback `record?.id?.record_id ||
record?.id` returns the raw id value unwrapped, so a compound id without a
`record_id` field (the shape Attio uses for tasks, meetings, threads) is
returned as an object, contradicting the function's declared `: string`
return type.  The null/empty-object sentinel cases of the claim do hold. -/
theorem claim_C6_id_fallback_not_string :
    extractRecordName (.obj [("id", .obj [("task_id", .str "t1")])]) =
      .obj [("task_id", .str "t1")] ∧
    (∀ s : String, JsVal.obj [("task_id", .str "t1")] ≠ .str s) ∧
    extractRecordName .null = .str "Unknown" ∧
    extractRecordName (.obj []) = .str "Unknown" :=
  ⟨by decide, fun _ h => JsVal.noConfusion h, by decide, by decide⟩

/-! ### Claim C9 — the flattener degrades rather than fails -/

/-- Claim C9: flattening a null, non-object, or empty values mapping
returns an empty mapping; a key whose array is empty or whose value is not
an array maps to an explicit null; and the output has exactly the input's
keys, so a mapped-to-null key is distinguishable from an absent key. -/
theorem claim_C9_flattener_degrades :
    flattenValues .null = [] ∧
    flattenValues .undefined = [] ∧
    (∀ s, flattenValues (.str s) = []) ∧
    (∀ q, flattenValues (.num q) = []) ∧
    (∀ b, flattenValues (.bool b) = []) ∧
    flattenValues (.obj []) = [] ∧
    (∀ (kvs : List (String × JsVal)) (k : String) (v : JsVal),
      (k, v) ∈ kvs → (v = .arr [] ∨ isArrayVal v = false) →
      (k, JsVal.null) ∈ flattenValues (.obj kvs)) ∧
    (∀ kvs : List (String × JsVal),
      (flattenValues (.obj kvs)).map Prod.fst = kvs.map Prod.fst) := by
  refine ⟨rfl, rfl, fun _ => rfl, fun _ => rfl, fun _ => rfl, rfl, ?_, ?_⟩
  · intro kvs k v hmem hv
    have hmm : (k, flattenEntry v) ∈ flattenValues (.obj kvs) := by
      simpa [flattenValues] using
        List.mem_map_of_mem (fun kv => (kv.1, flattenEntry kv.2)) hmem
    have he : flattenEntry v = .null := by
      rcases hv with h | h
      · subst h; rfl
      · cases v <;> first
          | rfl
          | simp [isArrayVal] at h
    rwa [he] at hmm
  · intro kvs
    simp [flattenValues, List.map_map, Function.comp]

/-- Claim C9 witness: the hypotheses of the per-key conjunct hold at the
concrete mapping `{empty: []}`. -/
theorem claim_C9_witness :
    ("empty", JsVal.arr []) ∈ [("empty", JsVal.arr [])] ∧
    ("empty", JsVal.null) ∈ flattenValues (.obj [("empty", .arr [])]) :=
  ⟨List.mem_singleton.mpr rfl,
    claim_C9_flattener_degrades.2.2.2.2.2.2.1 _ _ _ (List.mem_singleton.mpr rfl) (Or.inl rfl)⟩

/-! ### Claims C2 and C3 — personal-name extraction precedence -/

/-- Claim C2 counterexample: an Attribute Value *has* a full-name field
(the empty string) together with first/last names, but extraction returns
the first/last composition "Bob J", not the full-name field's value "" —
the source tests `first.full_name ||` (truthiness), not mere presence. -/
theorem claim_C2_counterexample :
    flattenValues (.obj [("name", .arr [.obj
        [("full_name", .str ""), ("first_name", .str "Bob"), ("last_name", .str "J")]])]) =
      [("name", .str "Bob J")] ∧
    extractRecordName (.obj [("values", .obj [("name", .arr [.obj
        [("full_name", .str ""), ("first_name", .str "Bob"), ("last_name", .str "J")]])])]) =
      .str "Bob J" ∧
    JsVal.str "Bob J" ≠ .str "" :=
  ⟨by decide, by decide, by decide⟩

/-- Claim C2 (amended): for every Attribute Value whose full-name field is
truthy (present and non-empty), extraction — in `flattenValues` and on the
name value inspected by `extractRecordName` — returns that full-name
field's value exactly, ignoring any first/last-name fields. -/
theorem claim_C2_full_name_precedence :
    (∀ v : JsVal, truthy (getField v "full_name") = true →
      flattenFirst v = getField v "full_name") ∧
    (∀ r : JsVal, truthy (getField (nameValOf r) "full_name") = true →
      extractRecordName r = getField (nameValOf r) "full_name") := by
  constructor
  · intro v h
    unfold flattenFirst
    rw [if_pos (truthy_isDefined h), jsOr_of_truthy _ h]
  · intro r h
    have hnv : truthy (nameValOf r) = true := truthy_getField_obj h
    have hname : extractFromNameVal (nameValOf r) = some (getField (nameValOf r) "full_name") := by
      unfold extractFromNameVal
      rw [if_pos hnv, if_pos h]
    simp [extractRecordName, hname]

/-- Claim C2 witness: both parts applied at a concrete personal-name value
carrying a truthy full name and different first/last parts. -/
theorem claim_C2_witness :
    truthy (getField (JsVal.obj [("full_name", .str "Alice Smith"), ("first_name", .str "Al"),
      ("last_name", .str "S")]) "full_name") = true ∧
    flattenFirst (JsVal.obj [("full_name", .str "Alice Smith"), ("first_name", .str "Al"),
      ("last_name", .str "S")]) = .str "Alice Smith" ∧
    extractRecordName (.obj [("values", .obj [("name", .arr [.obj
      [("full_name", .str "Alice Smith"), ("first_name", .str "Al"),
        ("last_name", .str "S")]])])]) = .str "Alice Smith" :=
  ⟨by decide,
    (claim_C2_full_name_precedence.1 _ (by decide)).trans (by decide),
    (claim_C2_full_name_precedence.2 _ (by decide)).trans (by decide)⟩

/-- Claim C3 counterexample: an Attribute Value with first/last-name fields
but *no* full-name field is not composed by `flattenValues`: the
first-name check only runs inside the `full_name !== undefined` branch, so
the value falls through every shape probe and passes through raw. -/
theorem claim_C3_counterexample :
    flattenValues (.obj [("name", .arr [.obj
        [("first_name", .str "Bob"), ("last_name", .str "Jones")]])]) =
      [("name", .obj [("first_name", .str "Bob"), ("last_name", .str "Jones")])] ∧
    JsVal.obj [("first_name", .str "Bob"), ("last_name", .str "Jones")] ≠ .str "Bob Jones" :=
  ⟨by decide, by decide⟩

/-- Claim C3 (amended): the trimmed composition
`"${first} ${last}".trim()` is produced by `flattenValues` exactly when a
full-name field is present but falsy, and by `extractRecordName` when the
name value's full-name field is falsy and first or last name is truthy; a
value with first/last but no full-name field at all passes through
`flattenValues` raw. -/
theorem claim_C3_first_last_composition :
    (∀ v : JsVal, isDefined (getField v "full_name") = true →
      truthy (getField v "full_name") = false →
      flattenFirst v = .str (composeFirstLast v)) ∧
    (∀ r : JsVal, truthy (nameValOf r) = true →
      truthy (getField (nameValOf r) "full_name") = false →
      (truthy (getField (nameValOf r) "first_name") ||
        truthy (getField (nameValOf r) "last_name")) = true →
      extractRecordName r = .str (composeFirstLast (nameValOf r))) ∧
    flattenFirst (.obj [("first_name", .str "Bob"), ("last_name", .str "Jones")]) =
      .obj [("first_name", .str "Bob"), ("last_name", .str "Jones")] := by
  refine ⟨?_, ?_, by decide⟩
  · intro v hdef hfalsy
    unfold flattenFirst
    rw [if_pos hdef, jsOr_of_falsy _ hfalsy]
  · intro r hnv hfalsy hfl
    have hname : extractFromNameVal (nameValOf r) =
        some (.str (composeFirstLast (nameValOf r))) := by
      unfold extractFromNameVal
      rw [if_pos hnv, if_neg (by simp [hfalsy]), if_pos (by simpa using hfl)]
    simp [extractRecordName, hname]

/-- Claim C3 witness: both composition paths applied at concrete values —
the flattener at a present-but-empty full name, the record-name resolver
at a name value with only a first name (trimming the trailing space). -/
theorem claim_C3_witness :
    isDefined (getField (JsVal.obj [("full_name", .str ""), ("first_name", .str "Bob"),
      ("last_name", .str "J")]) "full_name") = true ∧
    truthy (getField (JsVal.obj [("full_name", .str ""), ("first_name", .str "Bob"),
      ("last_name", .str "J")]) "full_name") = false ∧
    flattenFirst (JsVal.obj [("full_name", .str ""), ("first_name", .str "Bob"),
      ("last_name", .str "J")]) = .str "Bob J" ∧
    extractRecordName (.obj [("values", .obj [("name", .arr [.obj
      [("first_name", .str "Solo")]])])]) = .str "Solo" :=
  ⟨by decide, by decide,
    (claim_C3_first_last_composition.1 _ (by decide) (by decide)).trans (by decide),
    (claim_C3_first_last_composition.2.1 _ (by decide) (by decide) (by decide)).trans (by decide)⟩

/-! ### Claim C8 — search shaping filter -/

/-- Claim C8: with a (non-empty) type filter, shaping returns exactly the
shaped projections of the records whose own type tag or parent type tag
strictly equals the filter, in input order; with no filter every record is
projected in input order.  (An empty-string filter is falsy in the source
and behaves like no filter.)  The closed conjunct checks the spec's
"people" example: only the matching records survive, in relative order. -/
theorem claim_C8_shape_filter :
    (∀ (records : List JsVal) (t : String), t ≠ "" →
      shapeSearchResults records (some t) =
        (records.filter (fun r =>
          strictEqS (getField r "object") t || strictEqS (getField r "parent_object") t)).map
          (shapeRecord (some t))) ∧
    (∀ records : List JsVal, shapeSearchResults records none = records.map (shapeRecord none)) ∧
    (shapeSearchResults
        [.obj [("id", .obj [("record_id", .str "r1")]), ("object", .str "people")],
         .obj [("id", .obj [("record_id", .str "r2")]), ("object", .str "companies")],
         .obj [("id", .obj [("record_id", .str "r3")]), ("parent_object", .str "people")]]
        (some "people")).map (fun s => s.id) = [.str "r1", .str "r3"] := by
  refine ⟨?_, ?_, by decide⟩
  · intro records t ht
    unfold shapeSearchResults
    congr 1
    apply List.filter_congr
    intro r _
    simp [matchesTypeFilter, beq_eq_false_iff_ne.mpr ht]
  · intro records
    unfold shapeSearchResults
    congr 1
    apply List.filter_eq_self.mpr
    intro r _
    rfl

/-- Claim C8 witness: the filter conjunct applied at the concrete mixed
list with the non-empty filter "people". -/
theorem claim_C8_witness :
    "people" ≠ "" ∧
    shapeSearchResults
        [.obj [("object", .str "people")], .obj [("object", .str "companies")]]
        (some "people") =
      ([JsVal.obj [("object", .str "people")], .obj [("object", .str "companies")]].filter
        (fun r => strictEqS (getField r "object") "people" ||
          strictEqS (getField r "parent_object") "people")).map (shapeRecord (some "people")) :=
  ⟨by decide, claim_C8_shape_filter.1 _ "people" (by decide)⟩

/-! ### Claim C10 — task partition without loss or duplication -/

theorem filter_not_length_add {α : Type} (p : α → Bool) (l : List α) :
    (l.filter (fun a => !p a)).length + (l.filter p).length = l.length := by
  induction l with
  | nil => rfl
  | cons a l ih =>
    by_cases h : p a <;> simp [List.filter_cons, h] <;> omega

/-- Claim C10: task enrichment partitions without loss or duplication —
for every input task list the open and completed output lists' lengths sum
to the input length (every enriched task lands in exactly one of them). -/
theorem claim_C10_partition_lengths
    (tasks : List JsVal) (memberMap recordNameMap : List (String × String)) :
    (enrichTasks tasks memberMap recordNameMap).openTasks.length +
      (enrichTasks tasks memberMap recordNameMap).completedTasks.length = tasks.length := by
  unfold enrichTasks
  have hsorted : (sortTasksByDeadline (tasks.map (enrichTask memberMap recordNameMap))).length =
      tasks.length := by
    unfold sortTasksByDeadline
    rw [List.length_append,
      (List.perm_insertionSort deadlineLt _).length_eq]
    have := filter_not_length_add (fun t : EnrichedTask => truthy t.deadline)
      (tasks.map (enrichTask memberMap recordNameMap))
    simp only [List.length_map] at this ⊢
    omega
  simpa using (filter_not_length_add (fun t : EnrichedTask => t.isCompleted) _).trans hsorted

/-! ### Lemmas about the stage-map fold -/

theorem JsNum.add_nan (x : JsNum) : x.add .nan = .nan := by
  cases x <;> rfl

theorem updateStageAcc_total_nan {s : StageAcc} (v : Option JsNum) (h : s.total = .nan) :
    (updateStageAcc s v).total = .nan := by
  cases v with
  | none => simpa [updateStageAcc] using h
  | some n => simp [updateStageAcc, h, JsNum.add]

theorem lookupStage_bumpStage (k0 k : JsVal) (v : Option JsNum) :
    ∀ m : List (JsVal × StageAcc),
      lookupStage (bumpStage m k0 v) k =
        if k0 = k then
          some (updateStageAcc ((lookupStage m k).getD ⟨0, .int 0, false⟩) v)
        else lookupStage m k
  | [] => by
    by_cases h : k0 = k <;> simp [bumpStage, lookupStage, h]
  | (k', s) :: rest => by
    by_cases hk0 : k' = k0
    · subst hk0
      by_cases hk : k' = k
      · subst hk
        simp [bumpStage, lookupStage]
      · simp [bumpStage, lookupStage, hk, fun h : k' = k => hk h]
    · by_cases hk : k' = k
      · subst hk
        have hne : ¬ k0 = k' := fun h => hk0 h.symm
        simp [bumpStage, lookupStage, hk0, hne]
      · simp [bumpStage, lookupStage, hk0, hk, lookupStage_bumpStage k0 k v rest]

theorem lookupStage_stageFold (k : JsVal) :
    ∀ (entries : List JsVal) (m : List (JsVal × StageAcc)),
      lookupStage (entries.foldl (fun m e => bumpStage m (stageKeyOf e) (numValueOf e)) m) k =
        if stageValuesOf k entries = [] then lookupStage m k
        else some (accumStage ((lookupStage m k).getD ⟨0, .int 0, false⟩)
          (stageValuesOf k entries))
  | [], m => by simp [stageValuesOf]
  | e :: es, m => by
    rw [List.foldl_cons]
    rw [lookupStage_stageFold k es (bumpStage m (stageKeyOf e) (numValueOf e))]
    by_cases hke : stageKeyOf e = k
    · have hvs : stageValuesOf k (e :: es) = numValueOf e :: stageValuesOf k es := by
        simp [stageValuesOf, List.filter_cons, hke]
      rw [lookupStage_bumpStage, if_pos hke, hvs]
      by_cases hes : stageValuesOf k es = []
      · simp [hes, accumStage]
      · simp [hes, accumStage]
    · have hvs : stageValuesOf k (e :: es) = stageValuesOf k es := by
        simp [stageValuesOf, List.filter_cons, hke]
      rw [lookupStage_bumpStage, if_neg hke, hvs]

theorem bumpStage_keys (k0 : JsVal) (v : Option JsNum) :
    ∀ m : List (JsVal × StageAcc),
      (bumpStage m k0 v).map Prod.fst = m.map Prod.fst ∨
      (bumpStage m k0 v).map Prod.fst = m.map Prod.fst ++ [k0]
  | [] => by simp [bumpStage]
  | (k', s) :: rest => by
    by_cases hk0 : k' = k0
    · subst hk0
      simp [bumpStage]
    · rcases bumpStage_keys k0 v rest with h | h <;>
        simp [bumpStage, hk0, h]

theorem bumpStage_nodupKeys (k0 : JsVal) (v : Option JsNum) :
    ∀ m : List (JsVal × StageAcc), (m.map Prod.fst).Nodup →
      ((bumpStage m k0 v).map Prod.fst).Nodup
  | [], _ => by simp [bumpStage]
  | (k', s) :: rest, h => by
    simp only [List.map_cons, List.nodup_cons] at h
    by_cases hk0 : k' = k0
    · subst hk0
      simpa [bumpStage] using h
    · have hrest := bumpStage_nodupKeys k0 v rest h.2
      have hnotin : k' ∉ (bumpStage rest k0 v).map Prod.fst := by
        rcases bumpStage_keys k0 v rest with hk | hk <;> rw [hk]
        · exact h.1
        · simp only [List.mem_append, List.mem_singleton]
          rintro (hin | rfl)
          · exact h.1 hin
          · exact hk0 rfl
      simp [bumpStage, hk0, List.nodup_cons, hnotin, hrest]

theorem stageFold_nodupKeys :
    ∀ (entries : List JsVal) (m : List (JsVal × StageAcc)),
      (m.map Prod.fst).Nodup →
      (((entries.foldl (fun m e => bumpStage m (stageKeyOf e) (numValueOf e)) m)).map
        Prod.fst).Nodup
  | [], m, h => h
  | e :: es, m, h => by
    rw [List.foldl_cons]
    exact stageFold_nodupKeys es _ (bumpStage_nodupKeys _ _ _ h)

theorem lookupStage_of_mem {k : JsVal} {s : StageAcc} :
    ∀ m : List (JsVal × StageAcc), (m.map Prod.fst).Nodup → (k, s) ∈ m →
      lookupStage m k = some s
  | [], _, hmem => by simp at hmem
  | (k', s') :: rest, hnd, hmem => by
    simp only [List.map_cons, List.nodup_cons] at hnd
    rcases List.mem_cons.mp hmem with he | hrest
    · obtain ⟨rfl, rfl⟩ := Prod.mk.injEq .. ▸ he
      · simp [lookupStage]
    · have hne : ¬ k' = k := by
        intro he
        subst he
        exact hnd.1 (List.mem_map_of_mem Prod.fst hrest)
      simp [lookupStage, hne, lookupStage_of_mem rest hnd.2 hrest]

theorem accumStage_hasValue (vs : List (Option JsNum)) :
    ∀ init : StageAcc,
      (accumStage init vs).hasValue = (init.hasValue || vs.any (fun v => v.isSome)) := by
  induction vs with
  | nil => intro init; simp [accumStage]
  | cons v vs ih =>
    intro init
    rw [accumStage, List.foldl_cons, ← accumStage, ih]
    cases v <;> simp [updateStageAcc, Bool.or_assoc]

theorem accumStage_total_nan (vs : List (Option JsNum)) :
    ∀ init : StageAcc, (some JsNum.nan ∈ vs ∨ init.total = .nan) →
      (accumStage init vs).total = .nan := by
  induction vs with
  | nil =>
    intro init h
    rcases h with h | h
    · simp at h
    · simpa [accumStage] using h
  | cons v vs ih =>
    intro init h
    rw [accumStage, List.foldl_cons, ← accumStage]
    rcases h with h | h
    · rcases List.mem_cons.mp h with he | hv
      · subst he
        exact ih _ (Or.inr (by simp [updateStageAcc, JsNum.add_nan]))
      · exact ih _ (Or.inl hv)
    · exact ih _ (Or.inr (updateStageAcc_total_nan v h))

theorem computePipelineSummary_entries (lid lname : String) (entries : List JsVal)
    (rm : List (String × String)) :
    (computePipelineSummary lid lname (.arr entries) rm).entries =
      entries.map (shapeEntry rm) := rfl

theorem computePipelineSummary_stages (lid lname : String) (entries : List JsVal)
    (rm : List (String × String)) :
    (computePipelineSummary lid lname (.arr entries) rm).stages =
      (stageMapOf entries).map (fun ks =>
        { stage := ks.1
          count := ks.2.count
          totalValue := if ks.2.hasValue then some ks.2.total else none }) := rfl

/-- Every reported stage is the replay of the values of exactly the
entries that fall into it (and at least one entry does). -/
theorem stage_mem_spec {lid lname : String} {entries : List JsVal}
    {rm : List (String × String)} {st : PipelineStageSummary}
    (hst : st ∈ (computePipelineSummary lid lname (.arr entries) rm).stages) :
    stageValuesOf st.stage entries ≠ [] ∧
    st.count = (accumStage ⟨0, .int 0, false⟩ (stageValuesOf st.stage entries)).count ∧
    st.totalValue =
      (if (accumStage ⟨0, .int 0, false⟩ (stageValuesOf st.stage entries)).hasValue
       then some (accumStage ⟨0, .int 0, false⟩ (stageValuesOf st.stage entries)).total
       else none) := by
  rw [computePipelineSummary_stages, List.mem_map] at hst
  obtain ⟨⟨k, s⟩, hmem, rfl⟩ := hst
  have hnd : ((stageMapOf entries).map Prod.fst).Nodup :=
    stageFold_nodupKeys entries [] (by simp)
  have hlk : lookupStage (stageMapOf entries) k = some s :=
    lookupStage_of_mem _ hnd hmem
  rw [show stageMapOf entries =
        entries.foldl (fun m e => bumpStage m (stageKeyOf e) (numValueOf e)) [] from rfl,
      lookupStage_stageFold] at hlk
  by_cases hvs : stageValuesOf k entries = []
  · rw [if_pos hvs] at hlk
    exact absurd hlk (by simp [lookupStage])
  · rw [if_neg hvs] at hlk
    simp only [lookupStage, Option.getD] at hlk
    obtain rfl := (Option.some.injEq ..).mp hlk
    exact ⟨hvs, rfl, rfl⟩

/-! ### Claim C4 — stage totals are null exactly when no entry contributed -/

/-- Claim C4: a reported stage's totalValue is null if and only if every
shaped entry falling into that stage (by the `stage || "No Stage"` key)
has a null value; in particular the stage of currency values [5000, 0] has
totalValue 5000 with count 2, and a stage of all-null values has
totalValue null. -/
theorem claim_C4_stage_total_null_iff :
    (∀ (lid lname : String) (entries : List JsVal) (rm : List (String × String)),
      ∀ st ∈ (computePipelineSummary lid lname (.arr entries) rm).stages,
        (st.totalValue = none ↔
          ∀ pe ∈ (computePipelineSummary lid lname (.arr entries) rm).entries,
            jsOr pe.stage (.str "No Stage") = st.stage → pe.value = none)) ∧
    (computePipelineSummary "l" "T" (.arr [pipeEntryS 5000, pipeEntryS 0]) []).stages =
      [{ stage := .str "S", count := 2, totalValue := some (.int 5000) }] ∧
    (computePipelineSummary "l" "T" (.arr [pipeEntryNoValue, pipeEntryNoValue]) []).stages.map
      (fun s => s.totalValue) = [none] := by
  refine ⟨?_, by decide, by decide⟩
  intro lid lname entries rm st hst
  obtain ⟨hne, hcnt, htv⟩ := stage_mem_spec hst
  have hbridge : ((stageValuesOf st.stage entries).any (fun v => v.isSome) = false) ↔
      (∀ e ∈ entries, stageKeyOf e = st.stage → numValueOf e = none) := by
    constructor
    · intro h e he hk
      by_contra hnn
      have hv : numValueOf e ∈ stageValuesOf st.stage entries := by
        simp only [stageValuesOf, List.mem_map]
        exact ⟨e, List.mem_filter.mpr ⟨he, by simp [hk]⟩, rfl⟩
      have htrue : (stageValuesOf st.stage entries).any (fun v => v.isSome) = true :=
        List.any_eq_true.mpr ⟨_, hv, by simp [Option.isSome_iff_ne_none, hnn]⟩
      rw [h] at htrue
      exact Bool.noConfusion htrue
    · intro h
      by_contra hany
      rw [Bool.not_eq_false, List.any_eq_true] at hany
      obtain ⟨v, hv, hs⟩ := hany
      simp only [stageValuesOf, List.mem_map, List.mem_filter, decide_eq_true_eq] at hv
      obtain ⟨e, ⟨he, hk⟩, rfl⟩ := hv
      rw [h e he hk] at hs
      simp at hs
  rw [htv, accumStage_hasValue]
  have hinit : (⟨0, JsNum.int 0, false⟩ : StageAcc).hasValue = false := rfl
  rw [hinit, Bool.false_or]
  have hif : ∀ (b : Bool) (x : JsNum), (if b then some x else none) = none ↔ b = false := by
    intro b x
    cases b <;> simp
  rw [hif, hbridge, computePipelineSummary_entries]
  constructor
  · intro hq pe hpe hks
    rw [List.mem_map] at hpe
    obtain ⟨e, he, rfl⟩ := hpe
    exact hq e he hks
  · intro hp e he hk
    exact hp (shapeEntry rm e) (List.mem_map_of_mem _ he) hk

/-- Claim C4 witness: the iff instantiated at the [5000, 0] stage. -/
theorem claim_C4_witness :
    ({ stage := .str "S", count := 2, totalValue := some (.int 5000) } : PipelineStageSummary) ∈
      (computePipelineSummary "l" "T" (.arr [pipeEntryS 5000, pipeEntryS 0]) []).stages ∧
    ((some (JsNum.int 5000) : Option JsNum) = none ↔
      ∀ pe ∈ (computePipelineSummary "l" "T" (.arr [pipeEntryS 5000, pipeEntryS 0]) []).entries,
        jsOr pe.stage (.str "No Stage") = .str "S" → pe.value = none) :=
  ⟨by decide, claim_C4_stage_total_null_iff.1 "l" "T" [pipeEntryS 5000, pipeEntryS 0] []
    { stage := .str "S", count := 2, totalValue := some (.int 5000) } (by decide)⟩

/-! ### Claim C1 — value resolution and NaN -/

/-- Claim C1 counterexample: an entry whose value field holds the
non-numeric string "abc" does not get a null value — `Number("abc")` is
NaN and the source never filters it, so NaN becomes the entry's value and
the stage's running total. -/
theorem claim_C1_counterexample :
    (computePipelineSummary "l" "T" (.arr [pipeEntryNonNumeric]) []).entries.map
      (fun pe => pe.value) = [some JsNum.nan] ∧
    (computePipelineSummary "l" "T" (.arr [pipeEntryNonNumeric]) []).stages.map
      (fun st => st.totalValue) = [some JsNum.nan] ∧
    (some JsNum.nan : Option JsNum) ≠ none :=
  ⟨by decide, by decide, by decide⟩

/-- Claim C1 (amended): an entry's value is null exactly when the
value/amount/deal_value resolution chain produces no value (`null`); a
present value is coerced with `Number(...)` — which yields NaN for a
non-numeric value — and a NaN entry value is propagated: any stage
containing an entry whose value is NaN reports a NaN running total. -/
theorem claim_C1_value_resolution :
    (∀ entry : JsVal, numValueOf entry = none ↔ rawValueOf entry = .null) ∧
    (∀ entry : JsVal, rawValueOf entry ≠ .null →
      numValueOf entry = some (toNumber (rawValueOf entry))) ∧
    (∀ (lid lname : String) (entries : List JsVal) (rm : List (String × String)),
      ∀ st ∈ (computePipelineSummary lid lname (.arr entries) rm).stages,
        (∃ pe ∈ (computePipelineSummary lid lname (.arr entries) rm).entries,
          jsOr pe.stage (.str "No Stage") = st.stage ∧ pe.value = some JsNum.nan) →
        st.totalValue = some JsNum.nan) := by
  refine ⟨?_, ?_, ?_⟩
  · intro entry
    cases h : rawValueOf entry <;> simp [numValueOf, h]
  · intro entry hne
    cases h : rawValueOf entry <;> first
      | exact absurd h hne
      | simp [numValueOf, h]
  · intro lid lname entries rm st hst hex
    obtain ⟨hne, hcnt, htv⟩ := stage_mem_spec hst
    obtain ⟨pe, hpe, hkey, hval⟩ := hex
    rw [computePipelineSummary_entries, List.mem_map] at hpe
    obtain ⟨e, he, rfl⟩ := hpe
    have hk2 : stageKeyOf e = st.stage := hkey
    have hmemvs : some JsNum.nan ∈ stageValuesOf st.stage entries := by
      simp only [stageValuesOf, List.mem_map]
      exact ⟨e, List.mem_filter.mpr ⟨he, by simp [hk2]⟩, hval⟩
    have hhv : (accumStage ⟨0, .int 0, false⟩ (stageValuesOf st.stage entries)).hasValue =
        true := by
      rw [accumStage_hasValue]
      exact List.any_eq_true.mpr ⟨_, hmemvs, rfl⟩
    have htot : (accumStage ⟨0, .int 0, false⟩ (stageValuesOf st.stage entries)).total =
        .nan := accumStage_total_nan _ _ (Or.inl hmemvs)
    rw [htv, if_pos hhv, htot]

/-- Claim C1 witness: the NaN-propagation conjunct instantiated at the
"abc"-valued entry. -/
theorem claim_C1_witness :
    ({ stage := .str "S", count := 1, totalValue := some JsNum.nan } : PipelineStageSummary) ∈
      (computePipelineSummary "l" "T" (.arr [pipeEntryNonNumeric]) []).stages ∧
    ({ stage := .str "S", count := 1, totalValue := some JsNum.nan } :
      PipelineStageSummary).totalValue = some JsNum.nan :=
  ⟨by decide,
    claim_C1_value_resolution.2.2 "l" "T" [pipeEntryNonNumeric] []
      { stage := .str "S", count := 1, totalValue := some JsNum.nan } (by decide)
      ⟨shapeEntry [] pipeEntryNonNumeric, by decide, by decide, by decide⟩⟩

/-! ### Claim C7 — timeline ordering -/

theorem charListLe_total : ∀ as bs : List Char, charListLe as bs = true ∨ charListLe bs as = true
  | [], _ => Or.inl rfl
  | _ :: _, [] => Or.inr rfl
  | a :: as, b :: bs => by
    by_cases h1 : a.toNat < b.toNat
    · exact Or.inl (by simp [charListLe, h1])
    · by_cases h2 : b.toNat < a.toNat
      · exact Or.inr (by simp [charListLe, h2, h1])
      · rcases charListLe_total as bs with ih | ih
        · exact Or.inl (by simp [charListLe, h1, h2, ih])
        · exact Or.inr (by simp [charListLe, h1, h2, ih])

theorem charListLe_trans : ∀ as bs cs : List Char,
    charListLe as bs = true → charListLe bs cs = true → charListLe as cs = true
  | [], _, _, _, _ => rfl
  | _ :: _, [], _, hab, _ => by simp [charListLe] at hab
  | _ :: _, _ :: _, [], _, hbc => by simp [charListLe] at hbc
  | a :: as, b :: bs, c :: cs, hab, hbc => by
    simp only [charListLe] at hab hbc ⊢
    by_cases h1 : a.toNat < b.toNat
    · by_cases h2 : b.toNat < c.toNat
      · rw [if_pos (by omega)]
      · by_cases h3 : c.toNat < b.toNat
        · rw [if_neg h2, if_pos h3] at hbc
          exact Bool.noConfusion hbc
        · rw [if_pos (by omega)]
    · by_cases h4 : b.toNat < a.toNat
      · rw [if_neg h1, if_pos h4] at hab
        exact Bool.noConfusion hab
      · rw [if_neg h1, if_neg h4] at hab
        by_cases h2 : b.toNat < c.toNat
        · rw [if_pos (by omega)]
        · by_cases h3 : c.toNat < b.toNat
          · rw [if_neg h2, if_pos h3] at hbc
            exact Bool.noConfusion hbc
          · rw [if_neg h2, if_neg h3] at hbc
            rw [if_neg (by omega), if_neg (by omega)]
            exact charListLe_trans as bs cs hab hbc

theorem strLe_total (a b : String) : strLe a b = true ∨ strLe b a = true :=
  charListLe_total a.data b.data

theorem strLe_trans {a b c : String} (h1 : strLe a b = true) (h2 : strLe b c = true) :
    strLe a c = true :=
  charListLe_trans a.data b.data c.data h1 h2

theorem timelineLe_total (a b : TimelineEvent) : timelineLe a b = true ∨ timelineLe b a = true := by
  unfold timelineLe
  by_cases ha : truthy a.date <;> by_cases hb : truthy b.date <;> simp [ha, hb]
  exact strLe_total _ _

theorem timelineLe_trans (a b c : TimelineEvent) (hab : timelineLe a b = true)
    (hbc : timelineLe b c = true) : timelineLe a c = true := by
  unfold timelineLe at hab hbc ⊢
  by_cases ha : truthy a.date <;> by_cases hb : truthy b.date <;>
    by_cases hc : truthy c.date <;> simp [ha, hb, hc] at hab hbc ⊢
  exact strLe_trans hbc hab

theorem timeline_sorted (notes meetings threads : List JsVal) :
    (buildActivityTimeline notes meetings threads).Sorted timelineRel := by
  haveI : IsTotal TimelineEvent timelineRel := ⟨fun a b => timelineLe_total a b⟩
  haveI : IsTrans TimelineEvent timelineRel := ⟨fun a b c => timelineLe_trans a b c⟩
  exact List.sorted_insertionSort timelineRel _

/-- Every event's date is either truthy or exactly null (the `|| null`
normalizations never leave a falsy non-null date). -/
theorem timeline_date_shape {notes meetings threads : List JsVal} {ev : TimelineEvent}
    (h : ev ∈ buildActivityTimeline notes meetings threads) :
    truthy ev.date = true ∨ ev.date = .null := by
  rw [buildActivityTimeline, List.mem_insertionSort] at h
  rcases List.mem_append.mp h with h' | h'
  · rcases List.mem_append.mp h' with hn | hm
    · obtain ⟨n, _, rfl⟩ := List.mem_map.mp hn
      exact truthy_jsOr_or_eq _ _
    · obtain ⟨m, _, rfl⟩ := List.mem_map.mp hm
      rcases truthy_jsOr_or_eq (getField m "start_time")
          (jsOr (getField m "created_at") .null) with ht | he
      · exact Or.inl ht
      · rw [show (meetingEvent m).date =
            jsOr (getField m "start_time") (jsOr (getField m "created_at") .null) from rfl, he]
        exact truthy_jsOr_or_eq _ _
  · obtain ⟨t, _, rfl⟩ := List.mem_map.mp h'
    exact truthy_jsOr_or_eq _ _

/-- Claim C7: the merged timeline is ordered by descending date — once a
null date appears every later date is null (so null dates come after all
non-null dates, wherever they were in the input), and any two string-dated
events are in (weakly) descending lexical order; the spec's concrete
note/meeting/thread example merges to [meeting, note, thread]. -/
theorem claim_C7_timeline_order :
    (∀ notes meetings threads : List JsVal,
      (buildActivityTimeline notes meetings threads).Pairwise (fun a b =>
        (a.date = .null → b.date = .null) ∧
        (∀ sa sb : String, a.date = .str sa → b.date = .str sb → strLe sb sa = true))) ∧
    (buildActivityTimeline
        [.obj [("id", .str "n1"), ("created_at", .str "2026-02-05"), ("title", .str "note")]]
        [.obj [("id", .str "m1"), ("start_time", .str "2026-02-06"), ("title", .str "mtg")]]
        [.obj [("id", .str "t1"), ("created_at", .str "2026-02-04"),
          ("subject", .str "th")]]).map (fun ev => ev.type) = [.meeting, .note, .thread] := by
  refine ⟨?_, by decide⟩
  intro notes meetings threads
  refine List.Pairwise.imp_of_mem ?_ (timeline_sorted notes meetings threads)
  intro a b ha hb hr
  constructor
  · intro hanull
    rcases timeline_date_shape hb with hbt | hbn
    · exfalso
      unfold timelineRel timelineLe at hr
      rw [hanull] at hr
      have h0 : truthy JsVal.null = false := rfl
      simp [h0, hbt] at hr
    · exact hbn
  · intro sa sb hsa hsb
    have hat : truthy a.date = true := by
      rcases timeline_date_shape ha with h | h
      · exact h
      · rw [hsa] at h
        exact JsVal.noConfusion h
    have hbt : truthy b.date = true := by
      rcases timeline_date_shape hb with h | h
      · exact h
      · rw [hsb] at h
        exact JsVal.noConfusion h
    unfold timelineRel timelineLe at hr
    rw [hsa] at hr hat
    rw [hsb] at hr hbt
    simpa [hat, hbt, jsToString] using hr

/-- Claim C7 witness: the pairwise ordering instantiated at a concrete
input where the null-dated note precedes the dated meeting. -/
theorem claim_C7_witness :
    (buildActivityTimeline
      [.obj [("id", .str "n1"), ("created_at", .null)]]
      [.obj [("id", .str "m1"), ("start_time", .str "2026-02-06")]] []).Pairwise (fun a b =>
        (a.date = .null → b.date = .null) ∧
        (∀ sa sb : String, a.date = .str sa → b.date = .str sb → strLe sb sa = true)) :=
  claim_C7_timeline_order.1 _ _ _

/-! ### Claim C5 — partition-order independence of task enrichment -/

theorem charListLt_asymm : ∀ as bs : List Char,
    charListLt as bs = true → charListLt bs as = true → False
  | [], [], h, _ => by simp [charListLt] at h
  | [], _ :: _, _, h => by simp [charListLt] at h
  | _ :: _, [], h, _ => by simp [charListLt] at h
  | a :: as, b :: bs, h1, h2 => by
    simp only [charListLt] at h1 h2
    by_cases hab : a.toNat < b.toNat
    · rw [if_neg (by omega), if_pos (by omega)] at h2
      exact Bool.noConfusion h2
    · by_cases hba : b.toNat < a.toNat
      · rw [if_neg hab, if_pos hba] at h1
        exact Bool.noConfusion h1
      · rw [if_neg hab, if_neg hba] at h1
        rw [if_neg hba, if_neg hab] at h2
        exact charListLt_asymm as bs h1 h2

theorem charListLt_trans : ∀ as bs cs : List Char,
    charListLt as bs = true → charListLt bs cs = true → charListLt as cs = true
  | [], [], _, hab, _ => by simp [charListLt] at hab
  | _ :: _, [], _, hab, _ => by simp [charListLt] at hab
  | [], _ :: _, [], _, hbc => by simp [charListLt] at hbc
  | [], _ :: _, _ :: _, _, _ => rfl
  | _ :: _, _ :: _, [], _, hbc => by simp [charListLt] at hbc
  | a :: as, b :: bs, c :: cs, hab, hbc => by
    simp only [charListLt] at hab hbc ⊢
    by_cases h1 : a.toNat < b.toNat
    · by_cases h2 : b.toNat < c.toNat
      · rw [if_pos (by omega)]
      · by_cases h3 : c.toNat < b.toNat
        · rw [if_neg h2, if_pos h3] at hbc
          exact Bool.noConfusion hbc
        · rw [if_pos (by omega)]
    · by_cases h4 : b.toNat < a.toNat
      · rw [if_neg h1, if_pos h4] at hab
        exact Bool.noConfusion hab
      · rw [if_neg h1, if_neg h4] at hab
        by_cases h2 : b.toNat < c.toNat
        · rw [if_pos (by omega)]
        · by_cases h3 : c.toNat < b.toNat
          · rw [if_neg h2, if_pos h3] at hbc
            exact Bool.noConfusion hbc
          · rw [if_neg h2, if_neg h3] at hbc
            rw [if_neg (by omega), if_neg (by omega)]
            exact charListLt_trans as bs cs hab hbc

theorem charToNat_inj {a b : Char} (h : a.toNat = b.toNat) : a = b :=
  Char.ext (UInt32.toNat.inj h)

theorem charListLt_trichot : ∀ as bs : List Char,
    as ≠ bs → charListLt as bs = true ∨ charListLt bs as = true
  | [], [], h => absurd rfl h
  | [], _ :: _, _ => Or.inl rfl
  | _ :: _, [], _ => Or.inr rfl
  | a :: as, b :: bs, h => by
    by_cases hab : a.toNat < b.toNat
    · exact Or.inl (by simp [charListLt, hab])
    · by_cases hba : b.toNat < a.toNat
      · exact Or.inr (by simp [charListLt, hba, hab])
      · have he : a = b := charToNat_inj (by omega)
        subst he
        have hne : as ≠ bs := fun hh => h (by rw [hh])
        rcases charListLt_trichot as bs hne with ih | ih
        · exact Or.inl (by simp [charListLt, ih])
        · exact Or.inr (by simp [charListLt, ih])

theorem strLt_trans {a b c : String} (h1 : strLt a b = true) (h2 : strLt b c = true) :
    strLt a c = true :=
  charListLt_trans a.data b.data c.data h1 h2

theorem strLt_trichot {a b : String} (h : a ≠ b) : strLt a b = true ∨ strLt b a = true :=
  charListLt_trichot a.data b.data (fun hd => h (String.ext hd))

theorem jsNumLt_asymm (x y : JsVal) (h1 : jsNumLt x y = true) (h2 : jsNumLt y x = true) :
    False := by
  unfold jsNumLt at h1 h2
  rcases hx : toNumber x with _ | p <;> rcases hy : toNumber y with _ | q <;>
    rw [hx, hy] at h1 <;> rw [hy, hx] at h2 <;> simp at h1 h2
  omega

theorem jsLt_asymm : ∀ a b : JsVal, jsLt a b = true → jsLt b a = true → False := by
  intro a b h1 h2
  cases a <;> cases b <;> simp only [jsLt] at h1 h2 <;>
    first
      | exact charListLt_asymm _ _ h1 h2
      | exact jsNumLt_asymm _ _ h1 h2

theorem sorted_orderedInsert_local {α : Type} (r : α → α → Prop) [DecidableRel r] (a : α) :
    ∀ L : List α, L.Sorted r → (∀ b ∈ L, r a b ∨ r b a) →
      (∀ x ∈ a :: L, ∀ y ∈ a :: L, ∀ z ∈ a :: L, r x y → r y z → r x z) →
      (L.orderedInsert r a).Sorted r
  | [], _, _, _ => List.sorted_singleton a
  | b :: L, hs, hcomp, htrans => by
    rw [List.orderedInsert]
    by_cases hab : r a b
    · rw [if_pos hab]
      refine List.pairwise_cons.mpr ⟨?_, hs⟩
      intro x hx
      rcases List.mem_cons.mp hx with rfl | hxL
      · exact hab
      · refine htrans a (List.mem_cons_self a _) b (List.mem_cons_of_mem a (List.mem_cons_self b _))
          x (List.mem_cons_of_mem a (List.mem_cons_of_mem b hxL)) hab
          (List.rel_of_sorted_cons hs x hxL)
    · rw [if_neg hab]
      have hba : r b a := (hcomp b (List.mem_cons_self b L)).resolve_left hab
      refine List.pairwise_cons.mpr ⟨?_, ?_⟩
      · intro y hy
        rcases (List.mem_orderedInsert r).mp hy with rfl | hyL
        · exact hba
        · exact List.rel_of_sorted_cons hs y hyL
      · refine sorted_orderedInsert_local r a L hs.of_cons ?_ ?_
        · intro c hc
          exact hcomp c (List.mem_cons_of_mem b hc)
        · intro x hx y hy z hz
          have hlift : ∀ w, w ∈ a :: L → w ∈ a :: b :: L := by
            intro w hw
            rcases List.mem_cons.mp hw with rfl | hwL
            · exact List.mem_cons_self w _
            · exact List.mem_cons_of_mem a (List.mem_cons_of_mem b hwL)
          exact htrans x (hlift x hx) y (hlift y hy) z (hlift z hz)

theorem sorted_insertionSort_local {α : Type} (r : α → α → Prop) [DecidableRel r] :
    ∀ l : List α, l.Pairwise (fun a b => r a b ∨ r b a) →
      (∀ x ∈ l, ∀ y ∈ l, ∀ z ∈ l, r x y → r y z → r x z) →
      (List.insertionSort r l).Sorted r
  | [], _, _ => List.sorted_nil
  | a :: l, hcomp, htrans => by
    rw [List.insertionSort]
    have hc := List.pairwise_cons.mp hcomp
    have hlift : ∀ w, w ∈ a :: List.insertionSort r l → w ∈ a :: l := by
      intro w hw
      rcases List.mem_cons.mp hw with rfl | hwL
      · exact List.mem_cons_self w _
      · exact List.mem_cons_of_mem a ((List.mem_insertionSort r).mp hwL)
    refine sorted_orderedInsert_local r a (List.insertionSort r l)
      (sorted_insertionSort_local r l hc.2 ?_) ?_ ?_
    · intro x hx y hy z hz
      exact htrans x (List.mem_cons_of_mem a hx) y (List.mem_cons_of_mem a hy)
        z (List.mem_cons_of_mem a hz)
    · intro b hb
      exact hc.1 b ((List.mem_insertionSort r).mp hb)
    · intro x hx y hy z hz
      exact htrans x (hlift x hx) y (hlift y hy) z (hlift z hz)

theorem filter_insertionSort_comm {α : Type} (r : α → α → Prop) [DecidableRel r]
    (hasymm : ∀ x y, r x y → r y x → False) (l : List α)
    (hcomp : l.Pairwise (fun a b => r a b ∨ r b a))
    (htrans : ∀ x ∈ l, ∀ y ∈ l, ∀ z ∈ l, r x y → r y z → r x z)
    (p : α → Bool) :
    (List.insertionSort r l).filter p = List.insertionSort r (l.filter p) := by
  have hanti : IsAntisymm α r := ⟨fun x y h1 h2 => (hasymm x y h1 h2).elim⟩
  apply @List.eq_of_perm_of_sorted α r hanti
  · exact ((List.perm_insertionSort r l).filter p).trans
      (List.perm_insertionSort r (l.filter p)).symm
  · exact List.Pairwise.sublist (List.filter_sublist _)
      (sorted_insertionSort_local r l hcomp htrans)
  · refine sorted_insertionSort_local r (l.filter p)
      (List.Pairwise.sublist (List.filter_sublist _) hcomp) ?_
    intro x hx y hy z hz
    exact htrans x (List.mem_of_mem_filter hx) y (List.mem_of_mem_filter hy)
      z (List.mem_of_mem_filter hz)

/-- If every truthy deadline is a string and the truthy deadlines are
pairwise distinct, filtering commutes with the deadline sort. -/
theorem filter_sortTasksByDeadline (E : List EnrichedTask) (p : EnrichedTask → Bool)
    (hdist : (E.filter (fun t => truthy t.deadline)).Pairwise
      (fun a b => a.deadline ≠ b.deadline))
    (hstr : ∀ t ∈ E, truthy t.deadline = true → isStringVal t.deadline = true) :
    (sortTasksByDeadline E).filter p = sortTasksByDeadline (E.filter p) := by
  have hstrD : ∀ t ∈ E.filter (fun t => truthy t.deadline), ∃ s, t.deadline = .str s := by
    intro t ht
    have h1 := (List.mem_filter.mp ht).2
    have h2 := hstr t (List.mem_of_mem_filter ht) (by simpa using h1)
    cases hd : t.deadline
    case str s => exact ⟨s, rfl⟩
    all_goals (rw [hd] at h2; exact Bool.noConfusion h2)
  have hcomp : (E.filter (fun t => truthy t.deadline)).Pairwise
      (fun a b => deadlineLt a b ∨ deadlineLt b a) := by
    refine List.Pairwise.imp_of_mem ?_ hdist
    intro a b ha hb hne
    obtain ⟨sa, hsa⟩ := hstrD a ha
    obtain ⟨sb, hsb⟩ := hstrD b hb
    have hne' : sa ≠ sb := by
      intro h
      exact hne (by rw [hsa, hsb, h])
    unfold deadlineLt
    rw [hsa, hsb]
    simp only [jsLt]
    exact strLt_trichot hne'
  have htrans : ∀ x ∈ E.filter (fun t => truthy t.deadline),
      ∀ y ∈ E.filter (fun t => truthy t.deadline),
      ∀ z ∈ E.filter (fun t => truthy t.deadline),
      deadlineLt x y → deadlineLt y z → deadlineLt x z := by
    intro x hx y hy z hz h1 h2
    obtain ⟨sx, hsx⟩ := hstrD x hx
    obtain ⟨sy, hsy⟩ := hstrD y hy
    obtain ⟨sz, hsz⟩ := hstrD z hz
    unfold deadlineLt at h1 h2 ⊢
    rw [hsx, hsy] at h1
    rw [hsy, hsz] at h2
    rw [hsx, hsz]
    simp only [jsLt] at h1 h2 ⊢
    exact strLt_trans h1 h2
  unfold sortTasksByDeadline
  rw [List.filter_append]
  rw [filter_insertionSort_comm deadlineLt (fun x y h1 h2 => jsLt_asymm _ _ h1 h2) _
    hcomp htrans p]
  congr 1
  · congr 1
    rw [List.filter_filter, List.filter_filter]
    exact List.filter_congr (fun t _ => Bool.and_comm _ _)
  · rw [List.filter_filter, List.filter_filter]
    exact List.filter_congr (fun t _ => Bool.and_comm _ _)

/-- Claim C5: on any task list whose (truthy) deadlines are pairwise
distinct ISO strings, sorting the whole enriched set by the deadline rule
and then splitting by completion (what `enrichTasks` does) agrees with
partitioning first and sorting each partition; and the spec's 3-task
example yields open deadlines [2026-02-15, null] and completed deadline
[2026-02-10].  (Equal deadlines are excluded because the comparator
`a.deadline < b.deadline ? -1 : 1` is inconsistent on ties, making the JS
engine's tie order implementation-defined.) -/
theorem claim_C5_partition_sort_commute :
    (∀ (tasks : List JsVal) (mm rm : List (String × String)),
      ((tasks.map (enrichTask mm rm)).filter (fun t => truthy t.deadline)).Pairwise
        (fun a b => a.deadline ≠ b.deadline) →
      (∀ t ∈ tasks.map (enrichTask mm rm), truthy t.deadline = true →
        isStringVal t.deadline = true) →
      (enrichTasks tasks mm rm).openTasks =
        sortTasksByDeadline ((tasks.map (enrichTask mm rm)).filter
          (fun t => !t.isCompleted)) ∧
      (enrichTasks tasks mm rm).completedTasks =
        sortTasksByDeadline ((tasks.map (enrichTask mm rm)).filter
          (fun t => t.isCompleted))) ∧
    (enrichTasks exampleTasks3 [] []).openTasks.map (fun t => t.deadline) =
      [.str "2026-02-15", .null] ∧
    (enrichTasks exampleTasks3 [] []).completedTasks.map (fun t => t.deadline) =
      [.str "2026-02-10"] := by
  refine ⟨?_, by decide, by decide⟩
  intro tasks mm rm hdist hstr
  exact ⟨filter_sortTasksByDeadline (tasks.map (enrichTask mm rm)) _ hdist hstr,
    filter_sortTasksByDeadline (tasks.map (enrichTask mm rm)) _ hdist hstr⟩

/-- Claim C5 witness: the commutation applied to the concrete 3-task
example (distinct string deadlines hold there by computation). -/
theorem claim_C5_witness :
    ((exampleTasks3.map (enrichTask [] [])).filter (fun t => truthy t.deadline)).Pairwise
      (fun a b => a.deadline ≠ b.deadline) ∧
    (enrichTasks exampleTasks3 [] []).openTasks =
      sortTasksByDeadline ((exampleTasks3.map (enrichTask [] [])).filter
        (fun t => !t.isCompleted)) :=
  ⟨by decide,
    (claim_C5_partition_sort_commute.1 exampleTasks3 [] [] (by decide) (by decide)).1⟩
